import Mathlib

/-!
Shallow embedding of the `bittorrent-rust` peer-wire engine
(`src/peer.rs`, `src/download.rs`, `src/main.rs`).

Bytes are modelled as `Nat` (values below 256 on the wire); byte buffers
as `List Nat`.  Fallible Rust code (`anyhow::Result`, `io::Error`) is
modelled with `Except`; a Rust panic (`assert!`, slice-bound violations,
`copy_from_slice` length mismatch) is modelled with the `Panic` error
type.  Stateful stream code is modelled by explicit state passing: each
operation consumes a prefix of an explicit incoming byte list and
returns the list of messages it wrote.
-/

namespace BTR

/-- Model of `u32::to_be_bytes` (src/peer.rs uses it for `Request` fields and the
frame length in `MessageFramer::encode`). -/
def toBE4 (n : Nat) : List Nat :=
  [n / 16777216 % 256, n / 65536 % 256, n / 256 % 256, n % 256]

/-- Model of `u32::from_be_bytes` on a 4-byte list (frame length marker,
`Request`/`Piece` fields). -/
def fromBE4 : List Nat → Nat
  | [a, b, c, d] => ((a * 256 + b) * 256 + c) * 256 + d
  | _ => 0

theorem fromBE4_toBE4 (n : Nat) (h : n < 4294967296) : fromBE4 (toBE4 n) = n := by
  simp only [toBE4, fromBE4]
  omega

/-- Model of `MessageTag` (src/peer.rs:231-243). -/
inductive MessageTag
  | Choke
  | UnChoke
  | Interested
  | NotInterested
  | Have
  | BitField
  | Request
  | Piece
  | Cancel
deriving DecidableEq, Repr

/-- The `#[repr(u8)]` discriminant of each tag. -/
def MessageTag.toByte : MessageTag → Nat
  | .Choke => 0
  | .UnChoke => 1
  | .Interested => 2
  | .NotInterested => 3
  | .Have => 4
  | .BitField => 5
  | .Request => 6
  | .Piece => 7
  | .Cancel => 8

/-- The tag-byte match in `MessageFramer::decode` (src/peer.rs:298-314):
bytes 0..=8 map to tags, anything else is `none` (the decode error arm). -/
def byteToTag : Nat → Option MessageTag
  | 0 => some .Choke
  | 1 => some .UnChoke
  | 2 => some .Interested
  | 3 => some .NotInterested
  | 4 => some .Have
  | 5 => some .BitField
  | 6 => some .Request
  | 7 => some .Piece
  | 8 => some .Cancel
  | _ => none

theorem byteToTag_toByte (t : MessageTag) : byteToTag t.toByte = some t := by
  cases t <;> rfl

theorem byteToTag_eq_none_iff (b : Nat) : byteToTag b = none ↔ 8 < b := by
  constructor
  · intro h
    by_contra hb
    interval_cases b <;> simp [byteToTag] at h
  · intro h
    match b, h with
    | n + 9, _ => rfl

/-- Model of `Message` (src/peer.rs:245-249). -/
structure Message where
  tag : MessageTag
  payload : List Nat
deriving DecidableEq, Repr

/-- Model of `const MAX: usize = 1 << 16` (src/peer.rs:253), the frame ceiling. -/
def MAX : Nat := 65536

/-- The two `io::Error` values `MessageFramer::decode` can construct. -/
inductive DecodeError
  | frameTooLarge (len : Nat)
  | unknownTag (tag : Nat)
deriving DecidableEq, Repr

/-- The `io::Error` value `MessageFramer::encode` can construct. -/
inductive EncodeError
  | frameTooLarge (len : Nat)
deriving DecidableEq, Repr

/-- Model of `MessageFramer::decode` (src/peer.rs:259-323), as a function from the
buffer contents to (optional decoded message, remaining buffer contents).
`Ok (none, src)` is the "need more bytes" result; a zero length marker
(keep-alive) advances 4 bytes and retries, exactly as the recursive call
in the source.  Payload extraction mirrors the source: `src[5..4+length]`
when `src.len() > 5`, else empty. -/
def decode : List Nat → Except DecodeError (Option Message × List Nat)
  | a :: b :: c :: d :: rest =>
    let length := fromBE4 [a, b, c, d]
    if length = 0 then
      decode rest
    else if MAX < length then
      .error (.frameTooLarge length)
    else if rest.length < length then
      .ok (none, a :: b :: c :: d :: rest)
    else
      match byteToTag (rest.getD 0 0) with
      | none => .error (.unknownTag (rest.getD 0 0))
      | some tag =>
        let data := if 1 < rest.length then (rest.drop 1).take (length - 1) else []
        .ok (some ⟨tag, data⟩, rest.drop length)
  | short => .ok (none, short)

/-- Model of `MessageFramer::encode` (src/peer.rs:326-352): length prefix
`payload.len() + 1`, tag byte, payload, appended to `dst`; rejected when
the encoded length would exceed `MAX`. -/
def encode (item : Message) (dst : List Nat) : Except EncodeError (List Nat) :=
  if MAX < item.payload.length + 1 then
    .error (.frameTooLarge item.payload.length)
  else
    .ok (dst ++ toBE4 (item.payload.length + 1) ++ item.tag.toByte :: item.payload)

/-- Model of `BitField::has_piece` (src/peer.rs:91-99): byte index `piece / 8`,
bit index `piece % 8`, mask `1u8.rotate_right(1 + bit_i)` — i.e. bit
`7 - bit_i`, MSB-first; an out-of-range byte index yields `false`. -/
def hasPiece (payload : List Nat) (piece : Nat) : Bool :=
  match payload.get? (piece / 8) with
  | none => false
  | some byte => byte &&& (1 <<< (7 - piece % 8)) != 0

/-- Model of `Handshake` (src/peer.rs:137-144), `#[repr(C)]`, 68 bytes. -/
structure Handshake where
  length : Nat
  bittorrent : List Nat
  reserved : List Nat
  infoHash : List Nat
  peerId : List Nat
deriving DecidableEq, Repr

/-- ASCII bytes of `b"BitTorrent protocol"`. -/
def bittorrentLiteral : List Nat :=
  [66, 105, 116, 84, 111, 114, 114, 101, 110, 116, 32,
   112, 114, 111, 116, 111, 99, 111, 108]

/-- ASCII bytes of the hard-coded local peer id `b"00112233445566778899"`. -/
def localPeerId : List Nat :=
  [48, 48, 49, 49, 50, 50, 51, 51, 52, 52, 53, 53, 54, 54, 55, 55, 56, 56, 57, 57]

/-- Model of `Handshake::new` (src/peer.rs:147-155). -/
def handshakeNew (infoHash peerId : List Nat) : Handshake :=
  ⟨19, bittorrentLiteral, List.replicate 8 0, infoHash, peerId⟩

/-- Model of `Handshake::as_bytes_mut` viewed as the 68-byte write
(src/peer.rs:157-160): the `#[repr(C)]` field layout in order. -/
def handshakeBytes (h : Handshake) : List Nat :=
  h.length :: (h.bittorrent ++ h.reserved ++ h.infoHash ++ h.peerId)

/-- The 20-byte info-hash field of a 68-byte handshake reply
(bytes 28..48 of the `#[repr(C)]` layout). -/
def replyInfoHash (reply : List Nat) : List Nat :=
  ((reply.take 68).drop 28).take 20

/-- The error cases of `Peer::new` (src/peer.rs:23-53): the stream ends
before 68 reply bytes (`read_exact` fails), the framed stream ends or
errors before a first message, or the first message is not `BitField`
(the `anyhow::ensure!` at src/peer.rs:46). -/
inductive ConnectError
  | replyTooShort
  | streamClosed
  | decodeFailed (e : DecodeError)
  | firstNotBitField
deriving DecidableEq, Repr

/-- The connection state `Peer` carries after `Peer::new`
(src/peer.rs:16-20): the stored remote bitfield payload plus the
not-yet-consumed bytes of the incoming stream. -/
structure PeerConn where
  bitField : List Nat
  incoming : List Nat
deriving DecidableEq, Repr

/-- Model of `Peer::new` (src/peer.rs:23-53) over an explicit incoming byte
stream `input`.  It writes the 68-byte local handshake, reads the
68-byte reply (never inspecting it), then decodes the first framed
message, which must carry tag `BitField`.  Result: the connection (or
error), the raw bytes written, and the framed messages sent — the
source sends none during `new`. -/
def peerNew (infoHash : List Nat) (input : List Nat) :
    Except ConnectError PeerConn × List Nat × List Message :=
  let sentRaw := handshakeBytes (handshakeNew infoHash localPeerId)
  if input.length < 68 then
    (.error .replyTooShort, sentRaw, [])
  else
    match decode (input.drop 68) with
    | .error e => (.error (.decodeFailed e), sentRaw, [])
    | .ok (none, _) => (.error .streamClosed, sentRaw, [])
    | .ok (some msg, rest) =>
      if msg.tag = .BitField then
        (.ok ⟨msg.payload, rest⟩, sentRaw, [])
      else
        (.error .firstNotBitField, sentRaw, [])

/-- Model of `const BLOCK_MAX_SIZE: u32 = 1 << 14` (src/peer.rs:14, src/main.rs:14). -/
def BLOCK_MAX_SIZE : Nat := 16384

/-- Model of `Piece::index` (src/peer.rs:205-207): first 4 payload bytes, big-endian. -/
def pieceIndex (payload : List Nat) : Nat := fromBE4 (payload.take 4)

/-- Model of `Piece::begin` (src/peer.rs:209-211): payload bytes 4..8, big-endian. -/
def pieceBegin (payload : List Nat) : Nat := fromBE4 ((payload.drop 4).take 4)

/-- Model of `Piece::block` (src/peer.rs:213-215): payload bytes from offset
`PIECE_LEAD = 8` on (the unsized tail of the `#[repr(C)]` struct, whose
fat-pointer length `n - PIECE_LEAD` is set by `ref_from_bytes`). -/
def pieceBlock (payload : List Nat) : List Nat := payload.drop 8

/-- Model of `Request::new(index, begin, length).as_bytes_mut()`
(src/peer.rs:163-195): three big-endian `u32` fields. -/
def requestBytes (index begin length : Nat) : List Nat :=
  toBE4 index ++ toBE4 begin ++ toBE4 length

/-- The error cases of `Peer::download` (src/peer.rs:55-83). The
`assert_eq!` on the message tag (src/peer.rs:76) is a panic; it is
modelled as the error `panicTagNotPiece`. -/
inductive DownloadError
  | missingPiece (piece : Nat)
  | streamClosed
  | decodeFailed (e : DecodeError)
  | panicTagNotPiece
  | deserializeFailed
  | beginMismatch
  | lengthMismatch
deriving DecidableEq, Repr

/-- Model of `Peer::download` (src/peer.rs:55-83) over the explicit connection
state.  Checks `has_piece` before anything is sent; sends one `Request`
for `(piece, block * BLOCK_MAX_SIZE, block_size)`; reads one framed
message, which must have tag `Piece` (panic otherwise), at least
`PIECE_LEAD = 8` payload bytes (`ref_from_bytes`), the requested begin
offset and the requested block length.  The piece-index field of the
response is never compared.  Result: the block bytes and new state (or
error), plus the framed messages sent. -/
def download (st : PeerConn) (piece block blockSize : Nat) :
    Except DownloadError (List Nat × PeerConn) × List Message :=
  if ¬ hasPiece st.bitField piece then
    (.error (.missingPiece piece), [])
  else
    let req : Message := ⟨.Request, requestBytes piece (block * BLOCK_MAX_SIZE) blockSize⟩
    match decode st.incoming with
    | .error e => (.error (.decodeFailed e), [req])
    | .ok (none, _) => (.error .streamClosed, [req])
    | .ok (some msg, rest) =>
      if msg.tag ≠ .Piece then
        (.error .panicTagNotPiece, [req])
      else if msg.payload.length < 8 then
        (.error .deserializeFailed, [req])
      else if pieceBegin msg.payload ≠ block * BLOCK_MAX_SIZE then
        (.error .beginMismatch, [req])
      else if (pieceBlock msg.payload).length ≠ blockSize then
        (.error .lengthMismatch, [req])
      else
        (.ok (pieceBlock msg.payload, { st with incoming := rest }), [req])

/-- Rust panics reachable in the modelled fragments of `download_all`
and `DownloadedIter`. -/
inductive Panic
  | assertFailed
  | sliceLenMismatch
  | indexOutOfBounds
deriving DecidableEq, Repr

/-- Model of `buf[start..].copy_from_slice(&src)` (src/download.rs:119): panics
when `start` is past the end of `buf` or when the tail `buf[start..]`
and `src` have different lengths; otherwise replaces the tail. -/
def copyFromSliceTail (buf : List Nat) (start : Nat) (src : List Nat) :
    Except Panic (List Nat) :=
  if start ≤ buf.length then
    if buf.length - start = src.length then
      .ok (buf.take start ++ src)
    else
      .error .sliceLenMismatch
  else
    .error .indexOutOfBounds

/-- The verify-and-store tail of the `download_all` piece loop
(src/download.rs:114-119): compute the digest of the reassembled piece
buffer, `assert_eq!` it against the expected hash (panic on mismatch),
then copy the piece buffer over `all_pieces[index * piece_length..]`.
The SHA-1 implementation is the external `sha1` crate, passed here as
the function `digest`. -/
def verifyAndStore (digest : List Nat → List Nat)
    (allBlocks expected buf : List Nat) (start : Nat) :
    Except Panic (List Nat) :=
  if digest allBlocks = expected then
    copyFromSliceTail buf start allBlocks
  else
    .error .assertFailed

/-- Model of `File` (src/torrent.rs:63-67). -/
structure TFile where
  length : Nat
  path : List String
deriving DecidableEq, Repr

/-- Model of `Downloaded` (src/download.rs:134-137). -/
structure Downloaded where
  bytes : List Nat
  files : List TFile
deriving DecidableEq, Repr

/-- Model of `DownloadedIter` (src/download.rs:149-163): the not-yet-yielded
files plus the `offset` field. -/
structure DlIterState where
  bytes : List Nat
  fileIter : List TFile
  offset : Nat
deriving DecidableEq, Repr

/-- Model of `DownloadedIter::new` (src/download.rs:156-162): offset starts at 0. -/
def dlIterNew (d : Downloaded) : DlIterState :=
  ⟨d.bytes, d.files, 0⟩

/-- Model of `DownloadedIter::next` (src/download.rs:168-172): yields
`&bytes[offset..][..file.length]` (a panic when out of bounds) and — as
in the source — leaves `offset` unchanged. -/
def dlIterNext (s : DlIterState) : Option (Except Panic (List Nat) × DlIterState) :=
  match s.fileIter with
  | [] => none
  | f :: rest =>
    let slice : Except Panic (List Nat) :=
      if s.offset ≤ s.bytes.length then
        if s.offset + f.length ≤ s.bytes.length then
          .ok ((s.bytes.drop s.offset).take f.length)
        else
          .error .indexOutOfBounds
      else
        .error .indexOutOfBounds
    some (slice, { s with fileIter := rest })

/-- Driving `dlIterNext` to exhaustion (fuelled by the number of files,
which bounds the iteration since each `next` consumes one file). -/
def dlIterListAux : Nat → DlIterState → List (Except Panic (List Nat))
  | 0, _ => []
  | fuel + 1, s =>
    match dlIterNext s with
    | none => []
    | some (x, s') => x :: dlIterListAux fuel s'

/-- The full sequence of byte slices produced by iterating a `Downloaded`. -/
def dlIterList (d : Downloaded) : List (Except Panic (List Nat)) :=
  dlIterListAux d.files.length (dlIterNew d)

/-- Model of `blocks_num` (src/main.rs:295, src/download.rs:54):
`(piece_size + BLOCK_MAX_SIZE - 1) / BLOCK_MAX_SIZE`. -/
def blocksNum (pieceSize : Nat) : Nat :=
  (pieceSize + BLOCK_MAX_SIZE - 1) / BLOCK_MAX_SIZE

/-- The begin offset of block `block` (src/main.rs:306, src/peer.rs:65):
`block * BLOCK_MAX_SIZE`. -/
def blockBegin (block : Nat) : Nat := block * BLOCK_MAX_SIZE

/-- Model of `block_size` (src/main.rs:298-303): full `BLOCK_MAX_SIZE` except for
the final block, which gets `piece_size % BLOCK_MAX_SIZE` unless that
remainder is zero. -/
def blockSize (pieceSize block : Nat) : Nat :=
  if block = blocksNum pieceSize - 1 then
    let md := pieceSize % BLOCK_MAX_SIZE
    if md = 0 then BLOCK_MAX_SIZE else md
  else
    BLOCK_MAX_SIZE

instance {ε α : Type} [DecidableEq ε] [DecidableEq α] : DecidableEq (Except ε α) := fun a b =>
  match a, b with
  | .ok x, .ok y =>
    if h : x = y then .isTrue (by rw [h]) else .isFalse (fun he => h (Except.ok.inj he))
  | .error x, .error y =>
    if h : x = y then .isTrue (by rw [h]) else .isFalse (fun he => h (Except.error.inj he))
  | .ok _, .error _ => .isFalse (fun he => Except.noConfusion he)
  | .error _, .ok _ => .isFalse (fun he => Except.noConfusion he)

/-- C10: for every piece index the stored remote bitfield does not
report as present — `has_piece` is false, which includes every index at
or beyond the bitmap's bit capacity — `Peer::download` returns an error
immediately and sends no `Request` message on the stream. -/
theorem download_absent_piece_rejected (st : PeerConn) (piece block blockSize : Nat) :
    (8 * st.bitField.length ≤ piece → hasPiece st.bitField piece = false) ∧
    (hasPiece st.bitField piece = false →
      download st piece block blockSize = (.error (.missingPiece piece), [])) := by
  constructor
  · intro hcap
    have hnone : st.bitField.get? (piece / 8) = none := by
      rw [List.get?_eq_none]
      omega
    unfold hasPiece
    rw [hnone]
  · intro h
    simp [download, h]

/-- Witness for `download_absent_piece_rejected` at a concrete input:
the empty bitfield reports no piece, and `download` for piece 0 errors
without sending anything. -/
theorem download_absent_piece_rejected_w :
    hasPiece ([] : List Nat) 0 = false ∧
    download ⟨[], []⟩ 0 0 0 = (.error (.missingPiece 0), []) := by
  refine ⟨(download_absent_piece_rejected ⟨[], []⟩ 0 0 0).1 (by decide), ?_⟩
  exact (download_absent_piece_rejected ⟨[], []⟩ 0 0 0).2
    ((download_absent_piece_rejected ⟨[], []⟩ 0 0 0).1 (by decide))

/-- C1 (code bug): iterating a `Downloaded` whose files' lengths sum to
the buffer length does not slice the buffer at cumulative offsets:
`DownloadedIter::next` never advances `offset` (src/download.rs:168-172),
so every entry starts at byte 0.  With buffer `[10, 20]` and two
declared files of length 1 each, the iteration yields `[10], [10]`
instead of the claimed `[10], [20]`. -/
theorem downloadedIter_repeats_first_slice :
    dlIterList ⟨[10, 20], [⟨1, []⟩, ⟨1, []⟩]⟩ = [.ok [10], .ok [10]] ∧
    dlIterList ⟨[10, 20], [⟨1, []⟩, ⟨1, []⟩]⟩ ≠ [.ok [10], .ok [20]] := by
  exact ⟨rfl, by decide⟩

/-- C9 (code bug): the accepted-piece store in `download_all`
(src/download.rs:119) writes `all_pieces[index * piece_length..]
.copy_from_slice(&all_blocks)` without bounding the destination to the
piece length, so for every piece that is not the final piece the two
slices have different lengths and the copy panics instead of writing the
piece at its offset and leaving the rest unchanged.  Concretely: total
length 2, piece length 1, piece 0 (bytes `[7]`) whose digest matches the
expected hash — the store panics with a slice-length mismatch. -/
theorem downloadAll_store_panics_on_nonfinal_piece :
    verifyAndStore (fun _ => List.replicate 20 0) [7] (List.replicate 20 0) [0, 0] (0 * 1)
      = .error .sliceLenMismatch := rfl

/-- C4: in the verify-and-store step of `download_all`
(src/download.rs:114-119) a reassembled piece's bytes reach the final
content buffer only if their digest equals the expected hash; on a
mismatch the `assert_eq!` panics and no data is accepted. -/
theorem piece_stored_only_if_hash_matches (digest : List Nat → List Nat)
    (allBlocks expected buf : List Nat) (start : Nat) :
    (∀ buf2, verifyAndStore digest allBlocks expected buf start = .ok buf2 →
      digest allBlocks = expected) ∧
    (digest allBlocks ≠ expected →
      verifyAndStore digest allBlocks expected buf start = .error .assertFailed) := by
  constructor
  · intro buf2 hok
    by_contra hne
    simp [verifyAndStore, hne] at hok
  · intro hne
    simp [verifyAndStore, hne]

/-- Witness for `piece_stored_only_if_hash_matches` at a concrete
mismatching digest: the store panics and accepts nothing. -/
theorem piece_stored_only_if_hash_matches_w :
    ((fun (_ : List Nat) => [1]) [2] ≠ [0]) ∧
    verifyAndStore (fun _ => [1]) [2] [0] [0] 0 = .error .assertFailed := by
  exact ⟨by decide, (piece_stored_only_if_hash_matches (fun _ => [1]) [2] [0] [0] 0).2 (by decide)⟩

/-- C2 (counterexample): `Peer::new` never compares the handshake
reply's info-hash field with the local info hash.  Here the local hash
is twenty `1` bytes while the 68-byte reply is all zeros (so its
info-hash field is twenty `0` bytes), yet `Peer::new` returns a
connection once a `BitField` message follows. -/
theorem peerNew_accepts_mismatched_info_hash :
    (peerNew (List.replicate 20 1) (List.replicate 68 0 ++ [0, 0, 0, 2, 5, 128])).1
      = .ok ⟨[128], []⟩ ∧
    replyInfoHash (List.replicate 68 0 ++ [0, 0, 0, 2, 5, 128]) ≠ List.replicate 20 1 := by
  exact ⟨rfl, by decide⟩

/-- C2 (amended): `Peer::new` returns a connection exactly when at least
68 reply bytes arrive and the first decoded message carries tag
`BitField`; the reply's info-hash field is never examined (the success
condition does not mention the reply bytes at all). -/
theorem peerNew_ok_iff (infoHash input : List Nat) :
    (∃ conn, (peerNew infoHash input).1 = .ok conn) ↔
    (68 ≤ input.length ∧
      ∃ msg rest, decode (input.drop 68) = .ok (some msg, rest) ∧ msg.tag = .BitField) := by
  unfold peerNew
  by_cases hlen : input.length < 68
  · simp [hlen]
  · simp only [hlen, if_false]
    cases hdec : decode (input.drop 68) with
    | error e => simp [hdec]
    | ok p =>
      obtain ⟨om, rest⟩ := p
      cases om with
      | none => simp [hdec]
      | some msg =>
        by_cases htag : msg.tag = MessageTag.BitField
        · simp [hdec, htag]
          omega
        · simp [hdec, htag]

/-- C5 (counterexample): `Peer::download` never compares the piece
index of the response with the requested one.  Requesting piece 0,
block 0, size 1 and answering with a `Piece` message whose index field
is 5 (begin 0, one block byte `42`) returns the block bytes instead of
an error. -/
theorem download_accepts_wrong_piece_index :
    (download ⟨[128], [0, 0, 0, 10, 7, 0, 0, 0, 5, 0, 0, 0, 0, 42]⟩ 0 0 1).1
      = .ok ([42], ⟨[128], []⟩) ∧
    pieceIndex [0, 0, 0, 5, 0, 0, 0, 0, 42] = 5 ∧ (5 : Nat) ≠ 0 := by
  exact ⟨rfl, rfl, by decide⟩

/-- C5 (amended): for a `Piece`-tagged response with at least the
8-byte lead, `Peer::download` verifies only the begin offset and the
block length: it returns the block bytes exactly when both match the
request, and returns an error on a begin or length mismatch; the index
field of the response is never compared (see the counterexample). -/
theorem download_checks_begin_and_length (st : PeerConn) (piece block blockSize : Nat)
    (msg : Message) (rest : List Nat)
    (hbf : hasPiece st.bitField piece = true)
    (hdec : decode st.incoming = .ok (some msg, rest))
    (htag : msg.tag = .Piece)
    (hlen : 8 ≤ msg.payload.length) :
    ((download st piece block blockSize).1
        = .ok (pieceBlock msg.payload, { st with incoming := rest })
      ↔ (pieceBegin msg.payload = block * BLOCK_MAX_SIZE ∧
         (pieceBlock msg.payload).length = blockSize)) ∧
    (pieceBegin msg.payload ≠ block * BLOCK_MAX_SIZE →
      (download st piece block blockSize).1 = .error .beginMismatch) ∧
    (pieceBegin msg.payload = block * BLOCK_MAX_SIZE →
      (pieceBlock msg.payload).length ≠ blockSize →
      (download st piece block blockSize).1 = .error .lengthMismatch) := by
  have hlen2 : ¬ msg.payload.length < 8 := by omega
  refine ⟨?_, ?_, ?_⟩
  · by_cases hb : pieceBegin msg.payload = block * BLOCK_MAX_SIZE
    · by_cases hl : (pieceBlock msg.payload).length = blockSize
      · simp [download, hbf, hdec, htag, hlen2, hb, hl]
      · simp [download, hbf, hdec, htag, hlen2, hb, hl]
    · simp [download, hbf, hdec, htag, hlen2, hb]
  · intro hb
    simp [download, hbf, hdec, htag, hlen2, hb]
  · intro hb hl
    simp [download, hbf, hdec, htag, hlen2, hb, hl]

/-- Witness for `download_checks_begin_and_length`: a concrete
connection holding piece 0 with a well-formed `Piece` response (begin 0,
block `[42]`). -/
theorem download_checks_begin_and_length_w :
    ((download ⟨[128], [0, 0, 0, 10, 7, 0, 0, 0, 0, 0, 0, 0, 0, 42]⟩ 0 0 1).1
        = .ok (pieceBlock [0, 0, 0, 0, 0, 0, 0, 0, 42], ⟨[128], []⟩)
      ↔ (pieceBegin [0, 0, 0, 0, 0, 0, 0, 0, 42] = 0 * BLOCK_MAX_SIZE ∧
         (pieceBlock [0, 0, 0, 0, 0, 0, 0, 0, 42]).length = 1)) := by
  exact (download_checks_begin_and_length ⟨[128], [0, 0, 0, 10, 7, 0, 0, 0, 0, 0, 0, 0, 0, 42]⟩
    0 0 1 ⟨.Piece, [0, 0, 0, 0, 0, 0, 0, 0, 42]⟩ []
    (by decide) rfl rfl (by decide)).1

/-- C6 (counterexample): a connection established by `Peer::new` over a
stream carrying only a `BitField` message and a `Piece` message — no
`UnChoke` anywhere — succeeds, with no framed message (in particular no
`Interested`) sent during `new`; the subsequent `Peer::download` then
sends a `Request` as the very first framed message of the connection.
So a `Request` is sent although `Interested` was never sent and
`UnChoke` never arrived. -/
theorem request_sent_without_interested_unchoke :
    peerNew (List.replicate 20 1)
        (List.replicate 68 0 ++ [0, 0, 0, 2, 5, 128, 0, 0, 0, 10, 7, 0, 0, 0, 0, 0, 0, 0, 0, 42])
      = (.ok ⟨[128], [0, 0, 0, 10, 7, 0, 0, 0, 0, 0, 0, 0, 0, 42]⟩,
         handshakeBytes (handshakeNew (List.replicate 20 1) localPeerId), []) ∧
    download ⟨[128], [0, 0, 0, 10, 7, 0, 0, 0, 0, 0, 0, 0, 0, 42]⟩ 0 0 1
      = (.ok ([42], ⟨[128], []⟩), [⟨.Request, requestBytes 0 0 1⟩]) ∧
    MessageTag.Interested ∉ [MessageTag.Request] ∧
    MessageTag.UnChoke ∉ [MessageTag.BitField, MessageTag.Piece] := by
  exact ⟨rfl, rfl, by decide, by decide⟩

/-- C6 (amended): `Peer::new` performs no Interested/UnChoke flow at
all: whenever the 68-byte reply arrives and the first decoded framed
message carries tag `BitField`, it returns the connection having sent
only the raw handshake and no framed message, and having consumed no
message beyond that single `BitField` (so no `UnChoke` was awaited).
The Interested/UnChoke exchange exists only in the inline
`DownloadPiece` path of `main` (src/main.rs:273-285), not in
`Peer::new`. -/
theorem peerNew_sends_no_framed_messages (infoHash input : List Nat)
    (msg : Message) (rest : List Nat)
    (hlen : 68 ≤ input.length)
    (hdec : decode (input.drop 68) = .ok (some msg, rest))
    (htag : msg.tag = .BitField) :
    peerNew infoHash input
      = (.ok ⟨msg.payload, rest⟩, handshakeBytes (handshakeNew infoHash localPeerId), []) := by
  have hlen2 : ¬ input.length < 68 := by omega
  simp [peerNew, hlen2, hdec, htag]

/-- Witness for `peerNew_sends_no_framed_messages` at the concrete
stream of 68 zero reply bytes followed by one `BitField` frame. -/
theorem peerNew_sends_no_framed_messages_w :
    peerNew (List.replicate 20 1) (List.replicate 68 0 ++ [0, 0, 0, 2, 5, 128])
      = (.ok ⟨[128], []⟩,
         handshakeBytes (handshakeNew (List.replicate 20 1) localPeerId), []) := by
  exact peerNew_sends_no_framed_messages (List.replicate 20 1)
    (List.replicate 68 0 ++ [0, 0, 0, 2, 5, 128]) ⟨.BitField, [128]⟩ []
    (by decide) rfl rfl

/-- Decoding an encoded frame recovers the message and consumes the
whole frame. -/
theorem decode_encoded (tag : MessageTag) (payload : List Nat)
    (h : payload.length + 1 ≤ MAX) :
    decode (toBE4 (payload.length + 1) ++ tag.toByte :: payload)
      = .ok (some ⟨tag, payload⟩, []) := by
  have hfb : fromBE4 (toBE4 (payload.length + 1)) = payload.length + 1 :=
    fromBE4_toBE4 _ (by simp only [MAX] at h; omega)
  obtain ⟨e1, e2, e3, e4, hE⟩ :
      ∃ e1 e2 e3 e4, toBE4 (payload.length + 1) = [e1, e2, e3, e4] := ⟨_, _, _, _, rfl⟩
  rw [hE] at hfb ⊢
  simp only [List.cons_append, List.nil_append]
  rw [decode]
  have h1 : ¬ (payload.length + 1 = 0) := by omega
  have h2 : ¬ (MAX < payload.length + 1) := by omega
  have h3 : ¬ ((tag.toByte :: payload).length < payload.length + 1) := by
    simp
  simp only [hfb, h1, if_false, h2, h3, List.getD_cons_zero, byteToTag_toByte,
    List.length_cons, List.drop_succ_cons, List.drop_length]
  cases payload with
  | nil => simp
  | cons p ps =>
    have h4 : 1 < ps.length + 1 + 1 := by omega
    simp [h4]

/-- C3: encoding any of the nine tags with a payload whose framed
length fits the 64 KiB ceiling into an empty buffer and decoding the
result yields the original message with the whole frame consumed; and
decoding a buffer that is a 4-byte big-endian zero length (keep-alive)
consumes those 4 bytes and produces no message. -/
theorem encode_decode_roundtrip (tag : MessageTag) (payload : List Nat)
    (h : payload.length < MAX) :
    (∃ out, encode ⟨tag, payload⟩ [] = .ok out ∧
      decode out = .ok (some ⟨tag, payload⟩, [])) ∧
    decode [0, 0, 0, 0] = .ok (none, []) := by
  have hno : ¬ (MAX < payload.length + 1) := by omega
  refine ⟨⟨toBE4 (payload.length + 1) ++ tag.toByte :: payload, ?_,
    decode_encoded tag payload (by omega)⟩, rfl⟩
  simp [encode, hno]

/-- Witness for `encode_decode_roundtrip` at tag `Piece` with payload
`[1, 2, 3]`. -/
theorem encode_decode_roundtrip_w :
    ([1, 2, 3] : List Nat).length < MAX ∧
    (∃ out, encode ⟨.Piece, [1, 2, 3]⟩ [] = .ok out ∧
      decode out = .ok (some ⟨.Piece, [1, 2, 3]⟩, [])) := by
  exact ⟨by decide, (encode_decode_roundtrip .Piece [1, 2, 3] (by decide)).1⟩

/-- The claim's two fatal cases, written as a predicate on the buffer:
after silently consuming leading keep-alive (zero-length) frames, either
the declared nonzero frame length exceeds the `MAX` ceiling, or the
frame is fully buffered and its tag byte lies outside `0..=8`.  Every
other buffer is claimed to decode without error. -/
def decodeFails : List Nat → Bool
  | a :: b :: c :: d :: rest =>
    let length := fromBE4 [a, b, c, d]
    if length = 0 then decodeFails rest
    else if MAX < length then true
    else if rest.length < length then false
    else decide (8 < rest.getD 0 0)
  | _ => false

/-- C7: `MessageFramer::decode` returns an error exactly when, after
consuming leading keep-alive frames, the declared nonzero frame length
exceeds the 64 KiB ceiling or a fully buffered frame's tag byte is
outside the closed set `0..=8`; on every other input it returns a
decoded message or a need-more-bytes result, never an error. -/
theorem decode_error_exactly_two_cases (src : List Nat) :
    (∃ e, decode src = .error e) ↔ decodeFails src = true := by
  induction src using decodeFails.induct with
  | case1 a b c d rest L hL ih =>
    have hL' : fromBE4 [a, b, c, d] = 0 := hL
    rw [decode, decodeFails]
    simp only [hL', if_pos]
    exact ih
  | case2 a b c d rest L hL hM =>
    have hL' : ¬ fromBE4 [a, b, c, d] = 0 := hL
    have hM' : MAX < fromBE4 [a, b, c, d] := hM
    rw [decode, decodeFails]
    simp [hL', hM']
  | case3 a b c d rest L hL hM hS =>
    have hL' : ¬ fromBE4 [a, b, c, d] = 0 := hL
    have hM' : ¬ MAX < fromBE4 [a, b, c, d] := hM
    have hS' : rest.length < fromBE4 [a, b, c, d] := hS
    rw [decode, decodeFails]
    simp [hL', hM', hS']
  | case4 a b c d rest L hL hM hS =>
    have hL' : ¬ fromBE4 [a, b, c, d] = 0 := hL
    have hM' : ¬ MAX < fromBE4 [a, b, c, d] := hM
    have hS' : ¬ rest.length < fromBE4 [a, b, c, d] := hS
    rw [decode, decodeFails]
    cases hbt : byteToTag (rest.getD 0 0) with
    | none =>
      have : 8 < rest.getD 0 0 := (byteToTag_eq_none_iff _).1 hbt
      simp only [hL', hM', hS', hbt, if_false, if_neg]
      simp
      simpa [List.getD] using this
    | some t =>
      have : ¬ 8 < rest.getD 0 0 := by
        intro hgt
        rw [(byteToTag_eq_none_iff _).2 hgt] at hbt
        exact Option.noConfusion hbt
      simp [hL', hM', hS', hbt]
      simpa [List.getD] using this
  | case5 x h =>
    match x, h with
    | [], _ =>
      simp [show decode [] = .ok (none, []) from rfl,
        show decodeFails [] = false from rfl]
    | [a], _ =>
      simp [show decode [a] = .ok (none, [a]) from rfl,
        show decodeFails [a] = false from rfl]
    | [a, b], _ =>
      simp [show decode [a, b] = .ok (none, [a, b]) from rfl,
        show decodeFails [a, b] = false from rfl]
    | [a, b, c], _ =>
      simp [show decode [a, b, c] = .ok (none, [a, b, c]) from rfl,
        show decodeFails [a, b, c] = false from rfl]
    | a :: b :: c :: d :: rest, h =>
      exact (h a b c d rest rfl).elim

/-- C8: for every piece length at least 1, the block layout computed by
the `DownloadPiece` loop (src/main.rs:295-307) requests
`ceil(piece_length / 16384)` blocks (characterized by the two ceiling
inequalities); block `k` begins at `k * 16384`; every block but the
last has length 16384 and the last has length
`piece_length mod 16384`, or 16384 when that remainder is zero; and the
`(offset, length)` pairs tile `[0, piece_length)` exactly: consecutive
blocks abut, every offset below `piece_length` lies in exactly one
block. -/
theorem blocks_tile_piece (pl : Nat) (h : 1 ≤ pl) :
    ((blocksNum pl - 1) * BLOCK_MAX_SIZE < pl ∧ pl ≤ blocksNum pl * BLOCK_MAX_SIZE) ∧
    (∀ k, blockBegin k = k * BLOCK_MAX_SIZE) ∧
    (∀ k, k + 1 < blocksNum pl → blockSize pl k = BLOCK_MAX_SIZE) ∧
    (blockSize pl (blocksNum pl - 1)
      = if pl % BLOCK_MAX_SIZE = 0 then BLOCK_MAX_SIZE else pl % BLOCK_MAX_SIZE) ∧
    (∀ k, k < blocksNum pl →
      blockBegin k + blockSize pl k = min (blockBegin (k + 1)) pl) ∧
    (∀ off, off < pl →
      off / BLOCK_MAX_SIZE < blocksNum pl ∧
      blockBegin (off / BLOCK_MAX_SIZE) ≤ off ∧
      off < blockBegin (off / BLOCK_MAX_SIZE) + blockSize pl (off / BLOCK_MAX_SIZE) ∧
      (∀ j, j < blocksNum pl → blockBegin j ≤ off →
        off < blockBegin j + blockSize pl j → j = off / BLOCK_MAX_SIZE)) := by
  refine ⟨⟨?_, ?_⟩, fun k => rfl, ?_, ?_, ?_, ?_⟩
  · simp only [blocksNum, BLOCK_MAX_SIZE]
    omega
  · simp only [blocksNum, BLOCK_MAX_SIZE]
    omega
  · intro k hk
    unfold blockSize
    rw [if_neg (by omega)]
  · unfold blockSize
    rw [if_pos rfl]
  · intro k hk
    simp only [blockBegin, blockSize, blocksNum, BLOCK_MAX_SIZE] at hk ⊢
    split_ifs with h1 h2 <;> omega
  · intro off hoff
    refine ⟨?_, ?_, ?_, ?_⟩
    · simp only [blocksNum, BLOCK_MAX_SIZE]
      omega
    · simp only [blockBegin, BLOCK_MAX_SIZE]
      omega
    · simp only [blockBegin, blockSize, blocksNum, BLOCK_MAX_SIZE]
      split_ifs with h1 h2 <;> omega
    · intro j hj hjb hje
      simp only [blockBegin, blockSize, blocksNum, BLOCK_MAX_SIZE] at hj hjb hje ⊢
      split_ifs at hje with h1 h2 <;> omega

/-- Witness for `blocks_tile_piece` at piece length 20000: the ceiling
block count (2 blocks) bracketed by the two inequalities. -/
theorem blocks_tile_piece_w :
    1 ≤ 20000 ∧
    ((blocksNum 20000 - 1) * BLOCK_MAX_SIZE < 20000 ∧
      20000 ≤ blocksNum 20000 * BLOCK_MAX_SIZE) := by
  exact ⟨by decide, (blocks_tile_piece 20000 (by decide)).1⟩

end BTR
